import Mathlib

/-
Verification of the playback controller of the ZenGen meditation app
(src/components/MeditationPlayer.tsx).

The component keeps these pieces of mutable state:
  isPlaying          : React state, Bool
  progress           : React state, a percentage in [0, 100]
  audioSourceRef     : ref to the current AudioBufferSourceNode (or null)
  startTimeRef       : anchor timestamp (device clock value of virtual position 0)
  volume             : React state, the slider value
  gainNodeRef        : ref to the current GainNode (or null)
  animationFrameRef  : pending requestAnimationFrame handle (0 = none)
(pauseTimeRef is declared in the source but never read or written elsewhere,
so it is omitted here.)

Time and sample values are modelled with the rationals; the device clock
(ctx.currentTime) is passed explicitly to each operation.  An
AudioBufferSourceNode is modelled by the device time at which it was started,
the buffer offset it was started at, and whether stop() was called on it;
a started node plays the buffer tail of length (duration - offset), so it is
audible (active) at device time t exactly when it has not been stopped and
t < startedAt + (duration - offset).  Nodes that the component no longer
references (cleared or overwritten refs) are collected in the ghost field
finishedNodes so that the one-active-node invariant can be stated over every
node the component ever created.  The gain node is modelled by its current
gain value.  The decoded buffer (session.audioBuffer) is an optional
duration.
-/

namespace ZenGen

/-- Model of one AudioBufferSourceNode created by ctx.createBufferSource and
started with source.start(0, offset). -/
structure Node where
  startedAt : ℚ
  offset : ℚ
  stopped : Bool
deriving DecidableEq, Repr

/-- Device time at which a started node reaches the end of the buffer of
duration d (it was started at buffer offset n.offset). -/
def nodeEnd (d : ℚ) (n : Node) : ℚ := n.startedAt + (d - n.offset)

/-- A node is audible at device time t when it was not stopped and has not yet
played to the end of the buffer. -/
def nodeActive (d t : ℚ) (n : Node) : Bool :=
  !n.stopped && decide (t < nodeEnd d n)

/-- A node is dead at device time t when it was stopped or has already reached
the end of the buffer; deadness persists as t grows. -/
def nodeDead (d t : ℚ) (n : Node) : Prop :=
  n.stopped = true ∨ nodeEnd d n ≤ t

/-- The mutable state of the MeditationPlayer component. -/
structure PlayerState where
  isPlaying : Bool
  progress : ℚ
  audioSource : Option Node
  startTime : ℚ
  volume : ℚ
  gainNode : Option ℚ
  tickScheduled : Bool
  finishedNodes : List Node
deriving DecidableEq, Repr

/-- Initial component state: useState(false), useState(0), null refs,
startTimeRef = 0, useState(0.8), no pending animation frame. -/
def initState : PlayerState :=
  { isPlaying := false
    progress := 0
    audioSource := none
    startTime := 0
    volume := 8/10
    gainNode := none
    tickScheduled := false
    finishedNodes := [] }

/-- Progress fraction in [0, 1] as the spec speaks of it; the source stores a
percentage. -/
def progressFraction (s : PlayerState) : ℚ := s.progress / 100

/-- Every node the component ever created, the currently referenced one first.
Ghost view used to state the one-active-node invariant. -/
def allNodes (s : PlayerState) : List Node :=
  s.audioSource.toList ++ s.finishedNodes

/-- stopAudio (MeditationPlayer.tsx lines 24-36): if a source node is
referenced, call stop() on it (already-stopped errors are swallowed by the
try/catch) and clear the ref; cancel any pending animation frame. -/
def stopAudio (s : PlayerState) : PlayerState :=
  let s1 :=
    match s.audioSource with
    | some n =>
        { s with
            audioSource := none
            finishedNodes := { n with stopped := true } :: s.finishedNodes }
    | none => s
  { s1 with tickScheduled := false }

/-- updateProgress (lines 38-53): runs when a scheduled animation frame fires.
Returns early when no buffer is present.  Otherwise computes
elapsed = ctx.currentTime - startTimeRef, sets
progress = min(elapsed / duration * 100, 100), reschedules itself while
progress < 100 and isPlaying, and on progress >= 100 sets isPlaying to false
and progress to 100 without touching the source node.  The fired frame itself
is consumed by the step relation before this function runs. -/
def updateProgress (dur : Option ℚ) (now : ℚ) (s : PlayerState) : PlayerState :=
  match dur with
  | none => s
  | some d =>
      let elapsedTime := now - s.startTime
      let currentProgress := min (elapsedTime / d * 100) 100
      let s1 := { s with progress := currentProgress }
      if currentProgress < 100 ∧ s1.isPlaying = true then
        { s1 with tickScheduled := true }
      else if 100 ≤ currentProgress then
        { s1 with isPlaying := false, progress := 100 }
      else s1

/-- playAudio (lines 55-91): returns early when no buffer is present.
Otherwise creates a fresh source node, creates a gain node carrying the
current volume, computes offset = (progress / 100) * duration, sets
startTimeRef = ctx.currentTime - offset, starts the source at that offset,
stores it in audioSourceRef (the previously referenced node, if any, is
dropped without a stop call), sets isPlaying and schedules a progress frame.
(The ctx.resume() call for a suspended context has no observable effect in
this model.) -/
def playAudio (dur : Option ℚ) (now : ℚ) (s : PlayerState) : PlayerState :=
  match dur with
  | none => s
  | some d =>
      let offset := s.progress / 100 * d
      let node : Node := { startedAt := now, offset := offset, stopped := false }
      let dropped :=
        match s.audioSource with
        | some old => old :: s.finishedNodes
        | none => s.finishedNodes
      { s with
          gainNode := some s.volume
          startTime := now - offset
          audioSource := some node
          finishedNodes := dropped
          isPlaying := true
          tickScheduled := true }

/-- pauseAudio (lines 93-98): stopAudio then isPlaying = false; progress keeps
its last computed value. -/
def pauseAudio (s : PlayerState) : PlayerState :=
  { stopAudio s with isPlaying := false }

/-- togglePlay (lines 100-106). -/
def togglePlay (dur : Option ℚ) (now : ℚ) (s : PlayerState) : PlayerState :=
  if s.isPlaying = true then pauseAudio s else playAudio dur now s

/-- handleVolumeChange (lines 108-114): stores the parsed slider value and, if
a gain node exists, writes it to gain.value.  The function itself performs no
range check; the range input element (min 0, max 1, step 0.01) is what keeps
the delivered value in range. -/
def handleVolumeChange (v : ℚ) (s : PlayerState) : PlayerState :=
  { s with
      volume := v
      gainNode := if s.gainNode.isSome then some v else s.gainNode }

/-- Restart button onClick (line 175): pauseAudio(); setProgress(0);
startTimeRef.current = ctx.currentTime. -/
def restartClick (now : ℚ) (s : PlayerState) : PlayerState :=
  let s1 := pauseAudio s
  { s1 with progress := 0, startTime := now }

/-- User-visible and scheduler events, each stamped with the device-clock time
at which it runs. -/
inductive Ev where
  | toggle (t : ℚ)
  | tick (t : ℚ)
  | setVol (t : ℚ) (v : ℚ)
  | restart (t : ℚ)
  | unmount (t : ℚ)
deriving DecidableEq, Repr

/-- Device time at which an event runs. -/
def evTime : Ev → ℚ
  | .toggle t => t
  | .tick t => t
  | .setVol t _ => t
  | .restart t => t
  | .unmount t => t

/-- Whether an event is the restart button. -/
def isRestartEv : Ev → Bool
  | .restart _ => true
  | _ => false

/-- One step of the component: a toggle click, a fired animation frame (a
no-op when none is pending), a volume slider change, the restart button, or
the unmount cleanup effect (which runs stopAudio). -/
def step (dur : Option ℚ) (e : Ev) (s : PlayerState) : PlayerState :=
  match e with
  | .toggle t => togglePlay dur t s
  | .tick t =>
      if s.tickScheduled = true then
        updateProgress dur t { s with tickScheduled := false }
      else s
  | .setVol _ v => handleVolumeChange v s
  | .restart t => restartClick t s
  | .unmount _ => stopAudio s

/-- A trace is valid from time bound t when event times are non-decreasing and
never before t (the device clock is monotone). -/
def validFrom : ℚ → List Ev → Prop
  | _, [] => True
  | t, e :: es => t ≤ evTime e ∧ validFrom (evTime e) es

/-- Run a trace of events. -/
def run (dur : Option ℚ) : List Ev → PlayerState → PlayerState
  | [], s => s
  | e :: es, s => run dur es (step dur e s)

/-- Device time reached after a trace (the bound t when the trace is empty). -/
def endTimeOf : ℚ → List Ev → ℚ
  | t, [] => t
  | _, e :: es => endTimeOf (evTime e) es


/-- Invariant carried along every valid trace of the component, at device
time bound t with buffer duration d.  It records: the stored percentage is in
[0, 100]; while playing, the anchor is consistent with the stored percentage
(the percentage derived from the clock can only be larger); an animation
frame is pending only while playing; the referenced source node was never
stopped and its start data encode the anchor; when not playing, any still
referenced node has already played out (natural completion); and every node
no longer referenced is stopped or played out. -/
structure Inv (d t : ℚ) (s : PlayerState) : Prop where
  prog_nonneg : 0 ≤ s.progress
  prog_le : s.progress ≤ 100
  anchor : s.isPlaying = true → s.progress * d ≤ (t - s.startTime) * 100
  tick_play : s.tickScheduled = true → s.isPlaying = true
  src_wf : ∀ n, s.audioSource = some n →
    n.stopped = false ∧ n.startedAt - n.offset = s.startTime
  src_dead : s.isPlaying = false → ∀ n, s.audioSource = some n → nodeDead d t n
  fin_dead : ∀ n ∈ s.finishedNodes, nodeDead d t n

/-- Appending traces composes runs. -/
lemma run_append (dur : Option ℚ) (as bs : List Ev) (s : PlayerState) :
    run dur (as ++ bs) s = run dur bs (run dur as s) := by
  induction as generalizing s with
  | nil => rfl
  | cons e es ih => simpa [run] using ih (step dur e s)

/-- A valid extended trace is valid up to the extension point, and the
extension event is not earlier than the time the prefix reached. -/
lemma validFrom_append_last (t : ℚ) (as : List Ev) (e : Ev)
    (h : validFrom t (as ++ [e])) :
    validFrom t as ∧ endTimeOf t as ≤ evTime e := by
  induction as generalizing t with
  | nil => simpa [validFrom, endTimeOf] using h
  | cons a as ih =>
      obtain ⟨h1, h2⟩ := h
      obtain ⟨h3, h4⟩ := ih (evTime a) h2
      exact ⟨⟨h1, h3⟩, h4⟩

/-- If the elapsed time since the anchor has reached the buffer duration, the
update tick freezes the state at 100 percent and not playing, touching
nothing else. -/
lemma updateProgress_complete (d now : ℚ) (s : PlayerState) (hd : 0 < d)
    (hel : d ≤ now - s.startTime) :
    updateProgress (some d) now s = { s with isPlaying := false, progress := 100 } := by
  have h1 : (1:ℚ) ≤ (now - s.startTime) / d := (one_le_div hd).mpr hel
  have h100 : (100:ℚ) ≤ (now - s.startTime) / d * 100 := by nlinarith
  simp [updateProgress, min_eq_right h100]

/-- If the anchor encodes the current progress (as playAudio arranges), the
update tick recomputes exactly the stored progress. -/
lemma updateProgress_resume (d now : ℚ) (s : PlayerState) (hd : 0 < d)
    (h1 : s.progress ≤ 100) (hst : s.startTime = now - s.progress / 100 * d) :
    (updateProgress (some d) now s).progress = s.progress := by
  have he : (now - s.startTime) / d * 100 = s.progress := by
    rw [hst]
    field_simp
    ring
  simp only [updateProgress, he, min_eq_left h1]
  split_ifs with hb1 hb2
  · rfl
  · have : s.progress = 100 := le_antisymm h1 hb2
    simp [this]
  · rfl

/-- stopAudio never changes the stored progress. -/
@[simp] lemma stopAudio_progress (s : PlayerState) :
    (stopAudio s).progress = s.progress := by
  cases h : s.audioSource <;> simp [stopAudio, h]

/-- stopAudio never changes isPlaying (pauseAudio does that separately). -/
@[simp] lemma stopAudio_isPlaying (s : PlayerState) :
    (stopAudio s).isPlaying = s.isPlaying := by
  cases h : s.audioSource <;> simp [stopAudio, h]

/-- stopAudio never changes the anchor. -/
@[simp] lemma stopAudio_startTime (s : PlayerState) :
    (stopAudio s).startTime = s.startTime := by
  cases h : s.audioSource <;> simp [stopAudio, h]

/-- stopAudio cancels any pending animation frame. -/
@[simp] lemma stopAudio_tickScheduled (s : PlayerState) :
    (stopAudio s).tickScheduled = false := by
  cases h : s.audioSource <;> simp [stopAudio, h]

/-- stopAudio always leaves the source ref cleared. -/
@[simp] lemma stopAudio_audioSource (s : PlayerState) :
    (stopAudio s).audioSource = none := by
  cases h : s.audioSource <;> simp [stopAudio, h]

/-- Every node dropped by stopAudio is dead afterwards, at any time, provided
the previously tracked nodes were. -/
lemma stopAudio_finished_dead (d t : ℚ) (s : PlayerState)
    (hfin : ∀ n ∈ s.finishedNodes, nodeDead d t n) :
    ∀ n ∈ (stopAudio s).finishedNodes, nodeDead d t n := by
  cases h : s.audioSource with
  | none => simpa [stopAudio, h] using hfin
  | some n0 =>
      intro n hn
      simp [stopAudio, h] at hn
      rcases hn with rfl | hn
      · exact Or.inl rfl
      · exact hfin n hn

/-- Deadness of a node persists as the device clock advances. -/
lemma nodeDead_mono (d t t2 : ℚ) (n : Node) (ht : t ≤ t2) (h : nodeDead d t n) :
    nodeDead d t2 n :=
  h.imp id (fun h2 => h2.trans ht)

/-- The trace invariant persists as the device clock advances. -/
lemma inv_mono (d t t2 : ℚ) (s : PlayerState) (ht : t ≤ t2) (h : Inv d t s) :
    Inv d t2 s where
  prog_nonneg := h.prog_nonneg
  prog_le := h.prog_le
  anchor := fun hp => (h.anchor hp).trans (by nlinarith)
  tick_play := h.tick_play
  src_wf := h.src_wf
  src_dead := fun hp n hn => nodeDead_mono d t t2 n ht (h.src_dead hp n hn)
  fin_dead := fun n hn => nodeDead_mono d t t2 n ht (h.fin_dead n hn)

/-- The initial component state satisfies the invariant. -/
lemma inv_init (d : ℚ) : Inv d 0 initState := by
  constructor <;> simp [initState]

/-- stopAudio preserves the invariant. -/
lemma inv_stopAudio (d t : ℚ) (s : PlayerState) (h : Inv d t s) :
    Inv d t (stopAudio s) where
  prog_nonneg := by simpa using h.prog_nonneg
  prog_le := by simpa using h.prog_le
  anchor := by
    intro hp
    rw [stopAudio_isPlaying] at hp
    simpa using h.anchor hp
  tick_play := by simp
  src_wf := by simp
  src_dead := by simp
  fin_dead := stopAudio_finished_dead d t s h.fin_dead

/-- pauseAudio preserves the invariant. -/
lemma inv_pauseAudio (d t : ℚ) (s : PlayerState) (h : Inv d t s) :
    Inv d t (pauseAudio s) where
  prog_nonneg := by simpa [pauseAudio] using h.prog_nonneg
  prog_le := by simpa [pauseAudio] using h.prog_le
  anchor := by simp [pauseAudio]
  tick_play := by simp [pauseAudio]
  src_wf := by simp [pauseAudio]
  src_dead := by simp [pauseAudio]
  fin_dead := by
    intro n hn
    exact stopAudio_finished_dead d t s h.fin_dead n hn

/-- playAudio at the current device time preserves the invariant, provided the
component is not currently playing (the only way togglePlay reaches it). -/
lemma inv_playAudio (d t : ℚ) (s : PlayerState) (h : Inv d t s)
    (hp : s.isPlaying = false) : Inv d t (playAudio (some d) t s) where
  prog_nonneg := by simpa [playAudio] using h.prog_nonneg
  prog_le := by simpa [playAudio] using h.prog_le
  anchor := by
    intro _
    simp only [playAudio]
    have : (t - (t - s.progress / 100 * d)) * 100 = s.progress * d := by ring
    rw [this]
  tick_play := by simp [playAudio]
  src_wf := by
    intro n hn
    simp [playAudio] at hn
    subst hn
    refine ⟨rfl, ?_⟩
    simp only [playAudio]
  src_dead := by simp [playAudio]
  fin_dead := by
    intro n hn
    simp only [playAudio] at hn
    cases hsa : s.audioSource with
    | none =>
        rw [hsa] at hn
        exact h.fin_dead n hn
    | some old =>
        rw [hsa] at hn
        rcases List.mem_cons.mp hn with rfl | hn
        · exact h.src_dead hp n hsa
        · exact h.fin_dead n hn

/-- handleVolumeChange preserves the invariant. -/
lemma inv_handleVolumeChange (d t v : ℚ) (s : PlayerState) (h : Inv d t s) :
    Inv d t (handleVolumeChange v s) where
  prog_nonneg := by simpa [handleVolumeChange] using h.prog_nonneg
  prog_le := by simpa [handleVolumeChange] using h.prog_le
  anchor := by simpa [handleVolumeChange] using h.anchor
  tick_play := by simpa [handleVolumeChange] using h.tick_play
  src_wf := by simpa [handleVolumeChange] using h.src_wf
  src_dead := by simpa [handleVolumeChange] using h.src_dead
  fin_dead := by simpa [handleVolumeChange] using h.fin_dead

/-- The restart button at the current device time preserves the invariant. -/
lemma inv_restartClick (d t : ℚ) (s : PlayerState) (h : Inv d t s) :
    Inv d t (restartClick t s) where
  prog_nonneg := by simp [restartClick]
  prog_le := by simp [restartClick]
  anchor := by simp [restartClick, pauseAudio]
  tick_play := by simp [restartClick, pauseAudio]
  src_wf := by simp [restartClick, pauseAudio]
  src_dead := by simp [restartClick, pauseAudio]
  fin_dead := by
    intro n hn
    simp only [restartClick] at hn
    exact stopAudio_finished_dead d t s h.fin_dead n hn

/-- While playing, the percentage the tick computes from the clock is at least
the stored percentage, and the recomputed anchor inequality still holds for
it. -/
lemma tick_cp_bounds (d t : ℚ) (s : PlayerState) (hd : 0 < d) (h : Inv d t s)
    (hpl : s.isPlaying = true) :
    s.progress ≤ min ((t - s.startTime) / d * 100) 100 ∧
    min ((t - s.startTime) / d * 100) 100 * d ≤ (t - s.startTime) * 100 := by
  have ha := h.anchor hpl
  have hpc : s.progress ≤ (t - s.startTime) / d * 100 := by
    rw [div_mul_eq_mul_div, le_div_iff hd]
    linarith
  constructor
  · exact le_min hpc h.prog_le
  · have hm := min_le_left ((t - s.startTime) / d * 100) 100
    have he : (t - s.startTime) / d * 100 * d = (t - s.startTime) * 100 := by
      field_simp
    nlinarith

/-- When the computed percentage has been clamped at 100, the buffer duration
has fully elapsed since the anchor. -/
lemma tick_cp_complete (d t : ℚ) (s : PlayerState) (hd : 0 < d)
    (hc : (100:ℚ) ≤ min ((t - s.startTime) / d * 100) 100) :
    s.startTime + d ≤ t := by
  have h1 : (100:ℚ) ≤ (t - s.startTime) / d * 100 := (le_min_iff.mp hc).1
  rw [div_mul_eq_mul_div, le_div_iff hd] at h1
  linarith

/-- A fired animation frame preserves the invariant. -/
lemma inv_tickStep (d t : ℚ) (s : PlayerState) (hd : 0 < d) (h : Inv d t s) :
    Inv d t (step (some d) (Ev.tick t) s) := by
  simp only [step]
  by_cases hts : s.tickScheduled = true
  · rw [if_pos hts]
    have hpl : s.isPlaying = true := h.tick_play hts
    obtain ⟨hcp_ge, hcp_anchor⟩ := tick_cp_bounds d t s hd h hpl
    have hcp_le : min ((t - s.startTime) / d * 100) 100 ≤ 100 :=
      min_le_right _ _
    have hcp_nonneg : 0 ≤ min ((t - s.startTime) / d * 100) 100 :=
      h.prog_nonneg.trans hcp_ge
    simp only [updateProgress]
    split_ifs with hb1 hb2
    · exact {
        prog_nonneg := by simpa using hcp_nonneg
        prog_le := by simpa using hcp_le
        anchor := fun _ => by simpa using hcp_anchor
        tick_play := fun _ => by simpa using hpl
        src_wf := fun n hn => by
          have := h.src_wf n (by simpa using hn)
          simpa using this
        src_dead := by simp [hpl]
        fin_dead := fun n hn => h.fin_dead n (by simpa using hn) }
    · have hdone : s.startTime + d ≤ t := by
        refine tick_cp_complete d t s hd ?_
        simpa using hb2
      exact {
        prog_nonneg := by norm_num
        prog_le := by norm_num
        anchor := by simp
        tick_play := by simp
        src_wf := fun n hn => by
          have := h.src_wf n (by simpa using hn)
          simpa using this
        src_dead := fun _ n hn => by
          obtain ⟨-, hanchor⟩ := h.src_wf n (by simpa using hn)
          right
          rw [nodeEnd]
          linarith
        fin_dead := fun n hn => h.fin_dead n (by simpa using hn) }
    · exact {
        prog_nonneg := by simpa using hcp_nonneg
        prog_le := by simpa using hcp_le
        anchor := fun _ => by simpa using hcp_anchor
        tick_play := by simp
        src_wf := fun n hn => by
          have := h.src_wf n (by simpa using hn)
          simpa using this
        src_dead := by simp [hpl]
        fin_dead := fun n hn => h.fin_dead n (by simpa using hn) }
  · rw [if_neg hts]
    exact h

/-- Every event preserves the trace invariant, advancing the time bound to
the event's time. -/
lemma inv_step (d t : ℚ) (s : PlayerState) (hd : 0 < d) (h : Inv d t s)
    (e : Ev) (ht : t ≤ evTime e) : Inv d (evTime e) (step (some d) e s) := by
  have h2 : Inv d (evTime e) s := inv_mono d t (evTime e) s ht h
  cases e with
  | toggle t2 =>
      simp only [step, togglePlay, evTime]
      by_cases hp : s.isPlaying = true
      · rw [if_pos hp]
        exact inv_pauseAudio d t2 s h2
      · rw [if_neg hp]
        exact inv_playAudio d t2 s h2 (Bool.not_eq_true _ ▸ hp)
  | tick t2 => exact inv_tickStep d t2 s hd h2
  | setVol t2 v => exact inv_handleVolumeChange d t2 v s h2
  | restart t2 => exact inv_restartClick d t2 s h2
  | unmount t2 => exact inv_stopAudio d t2 s h2

/-- Running any valid trace from an invariant state lands in an invariant
state at the trace's final time. -/
lemma inv_run (d : ℚ) (hd : 0 < d) (es : List Ev) (t : ℚ) (s : PlayerState)
    (hv : validFrom t es) (h : Inv d t s) :
    Inv d (endTimeOf t es) (run (some d) es s) := by
  induction es generalizing t s with
  | nil => exact h
  | cons e es ih =>
      obtain ⟨h1, h2⟩ := hv
      exact ih (evTime e) (step (some d) e s) h2 (inv_step d t s hd h e h1)

/-- Across one non-restart event, progress does not decrease while playing
and does not change while paused. -/
lemma step_progress (d : ℚ) (s : PlayerState) (hd : 0 < d) (e : Ev)
    (h : Inv d (evTime e) s) (hre : isRestartEv e = false) :
    (s.isPlaying = true → s.progress ≤ (step (some d) e s).progress) ∧
    (s.isPlaying = false → (step (some d) e s).progress = s.progress) := by
  cases e with
  | toggle t2 =>
      by_cases hp : s.isPlaying = true
      · simp [step, togglePlay, hp, pauseAudio]
      · simp [step, togglePlay, hp, playAudio]
  | tick t2 =>
      by_cases hts : s.tickScheduled = true
      · have hpl : s.isPlaying = true := h.tick_play hts
        obtain ⟨hcp_ge, -⟩ :=
          tick_cp_bounds d t2 s hd (by simpa [evTime] using h) hpl
        constructor
        · intro _
          simp only [step, if_pos hts, updateProgress]
          split_ifs with hb1 hb2
          · simpa using hcp_ge
          · simpa using h.prog_le
          · simpa using hcp_ge
        · intro hcontra
          rw [hpl] at hcontra
          exact absurd hcontra (by simp)
      · simp [step, hts]
  | setVol t2 v => simp [step, handleVolumeChange]
  | restart t2 => exact absurd hre (by simp [isRestartEv])
  | unmount t2 => simp [step]

/-- A dead node is not audible. -/
lemma nodeActive_false_of_dead (d t : ℚ) (n : Node) (h : nodeDead d t n) :
    nodeActive d t n = false := by
  rcases h with h | h
  · simp [nodeActive, h]
  · simp [nodeActive, show ¬ (t < nodeEnd d n) from not_lt.mpr h]

/-- pauseAudio on a state whose source ref is already cleared only clears the
pending frame and the playing flag. -/
lemma pauseAudio_of_cleared (s : PlayerState) (ha : s.audioSource = none) :
    pauseAudio s = { s with tickScheduled := false, isPlaying := false } := by
  simp [pauseAudio, stopAudio, ha]

/-- C1: after a pause froze the progress percentage, playAudio starts the new
source node at offset progressFraction times the buffer duration, anchors the
start time at the current clock minus that offset, and the progress the next
tick recomputes from that anchor is exactly the frozen fraction — playback
resumes from where it was paused, not from 0. -/
theorem resume_from_pause_exact (d now : ℚ) (s : PlayerState) (hd : 0 < d)
    (hle : s.progress ≤ 100) :
    (pauseAudio s).progress = s.progress ∧
    (playAudio (some d) now (pauseAudio s)).audioSource =
      some { startedAt := now, offset := progressFraction s * d, stopped := false } ∧
    (playAudio (some d) now (pauseAudio s)).startTime =
      now - progressFraction s * d ∧
    progressFraction
      (updateProgress (some d) now (playAudio (some d) now (pauseAudio s))) =
      progressFraction s := by
  refine ⟨by simp [pauseAudio], ?_, ?_, ?_⟩
  · simp [playAudio, pauseAudio, progressFraction]
  · simp [playAudio, pauseAudio, progressFraction]
  · rw [progressFraction, updateProgress_resume d now _ hd]
    · simp [playAudio, pauseAudio, progressFraction]
    · simpa [playAudio, pauseAudio] using hle
    · simp [playAudio, pauseAudio]

/-- Witness for C1 at duration 10, pause at 50 percent, resume at clock 8. -/
theorem resume_from_pause_exact_witness :
    (playAudio (some 10) 8 (pauseAudio { initState with progress := 50 })).startTime =
      8 - progressFraction { initState with progress := 50 } * 10 ∧
    progressFraction
      (updateProgress (some 10) 8
        (playAudio (some 10) 8 (pauseAudio { initState with progress := 50 }))) =
      progressFraction { initState with progress := 50 } := by
  have h := resume_from_pause_exact 10 8 { initState with progress := 50 }
    (by norm_num) (by norm_num [initState])
  exact ⟨h.2.2.1, h.2.2.2⟩

/-- C2: along any valid trace (monotone device clock), a further non-restart
event never decreases the stored progress when taken in the Playing state and
never changes it when taken in the Paused state. -/
theorem progress_monotone_while_playing (d : ℚ) (es : List Ev) (e : Ev)
    (hd : 0 < d) (hv : validFrom 0 (es ++ [e])) (hre : isRestartEv e = false) :
    ((run (some d) es initState).isPlaying = true →
      (run (some d) es initState).progress ≤
        (run (some d) (es ++ [e]) initState).progress) ∧
    ((run (some d) es initState).isPlaying = false →
      (run (some d) (es ++ [e]) initState).progress =
        (run (some d) es initState).progress) := by
  obtain ⟨hv1, hv2⟩ := validFrom_append_last 0 es e hv
  have hinv : Inv d (endTimeOf 0 es) (run (some d) es initState) :=
    inv_run d hd es 0 initState hv1 (inv_init d)
  have hinv2 : Inv d (evTime e) (run (some d) es initState) :=
    inv_mono d _ _ _ hv2 hinv
  have hsp := step_progress d (run (some d) es initState) hd e hinv2 hre
  rw [run_append]
  simpa [run] using hsp

/-- Witness for C2: play at clock 0, then a tick at clock 5 with duration 10
takes the progress from 0 up to 50. -/
theorem progress_monotone_while_playing_witness :
    (run (some 10) [Ev.toggle 0] initState).isPlaying = true ∧
    (run (some 10) [Ev.toggle 0] initState).progress ≤
      (run (some 10) ([Ev.toggle 0] ++ [Ev.tick 5]) initState).progress := by
  have h := progress_monotone_while_playing 10 [Ev.toggle 0] (Ev.tick 5)
    (by norm_num) (by norm_num [validFrom, evTime]) (by norm_num [isRestartEv])
  have hp : (run (some 10) [Ev.toggle 0] initState).isPlaying = true := by
    simp [run, step, togglePlay, initState, playAudio]
  exact ⟨hp, h.1 hp⟩

/-- C3: in every state reachable by a valid trace, at any present or later
instant, at most one of the nodes the component ever created is audible; and
pause or teardown always releases the owned source-node handle. -/
theorem at_most_one_active_node (d : ℚ) (es : List Ev) (t2 : ℚ) (hd : 0 < d)
    (hv : validFrom 0 es) (ht : endTimeOf 0 es ≤ t2) :
    (allNodes (run (some d) es initState)).countP (nodeActive d t2) ≤ 1 ∧
    (∀ s : PlayerState, (pauseAudio s).audioSource = none ∧
      (stopAudio s).audioSource = none) := by
  constructor
  · have hinv : Inv d t2 (run (some d) es initState) :=
      inv_mono d _ t2 _ ht (inv_run d hd es 0 initState hv (inv_init d))
    rw [allNodes, List.countP_append]
    have hfin : (run (some d) es initState).finishedNodes.countP
        (nodeActive d t2) = 0 := by
      rw [List.countP_eq_zero]
      intro n hn
      simp [nodeActive_false_of_dead d t2 n (hinv.fin_dead n hn)]
    have hsrc : ((run (some d) es initState).audioSource.toList).countP
        (nodeActive d t2) ≤ 1 := by
      refine (List.countP_le_length _).trans ?_
      cases (run (some d) es initState).audioSource <;> simp
    omega
  · intro s
    exact ⟨by simp [pauseAudio], stopAudio_audioSource s⟩

/-- Witness for C3: after play at clock 0 with duration 10, at clock 3 exactly
the one created node is audible. -/
theorem at_most_one_active_node_witness :
    (allNodes (run (some 10) [Ev.toggle 0] initState)).countP
      (nodeActive 10 3) ≤ 1 := by
  have h := at_most_one_active_node 10 [Ev.toggle 0] 3 (by norm_num)
    (by norm_num [validFrom, evTime]) (by norm_num [endTimeOf, evTime])
  exact h.1

/-- C4: a tick whose elapsed time has reached the buffer duration clamps the
percentage to exactly 100, clears isPlaying, schedules no further frame, and
leaves the source node and the dropped-node list untouched (no stop call). -/
theorem natural_completion_tick (d now : ℚ) (s : PlayerState) (hd : 0 < d)
    (hts : s.tickScheduled = true) (hel : d ≤ now - s.startTime) :
    (step (some d) (Ev.tick now) s).progress = 100 ∧
    progressFraction (step (some d) (Ev.tick now) s) = 1 ∧
    (step (some d) (Ev.tick now) s).isPlaying = false ∧
    (step (some d) (Ev.tick now) s).tickScheduled = false ∧
    (step (some d) (Ev.tick now) s).audioSource = s.audioSource ∧
    (step (some d) (Ev.tick now) s).finishedNodes = s.finishedNodes := by
  have hstep : step (some d) (Ev.tick now) s =
      { s with tickScheduled := false, isPlaying := false, progress := 100 } := by
    simp only [step, if_pos hts]
    rw [updateProgress_complete d now _ hd (by simpa using hel)]
  rw [hstep]
  norm_num [progressFraction]

/-- Witness for C4 at duration 10, anchor 0, tick at clock 12. -/
theorem natural_completion_tick_witness :
    (step (some 10) (Ev.tick 12)
      { initState with tickScheduled := true, isPlaying := true }).progress = 100 ∧
    (step (some 10) (Ev.tick 12)
      { initState with tickScheduled := true, isPlaying := true }).isPlaying = false := by
  have h := natural_completion_tick 10 12
    { initState with tickScheduled := true, isPlaying := true }
    (by norm_num) rfl (by norm_num [initState])
  exact ⟨h.1, h.2.2.1⟩

/-- C5: the restart button always resets the stored progress to exactly 0 and
leaves the component not playing, from any prior state. -/
theorem restart_resets_progress (now : ℚ) (s : PlayerState) :
    (restartClick now s).progress = 0 ∧
    progressFraction (restartClick now s) = 0 ∧
    (restartClick now s).isPlaying = false := by
  simp [restartClick, pauseAudio, progressFraction]

/-- C6 counterexample: handleVolumeChange applies no range policy at all — an
out-of-range level 3/2 is neither rejected nor clamped, and the stored volume
afterwards is 3/2, outside [0, 1]. -/
theorem volume_policy_counterexample :
    (handleVolumeChange (3/2) initState).volume = 3/2 ∧
    ¬ ((handleVolumeChange (3/2) initState).volume ≤ 1) := by
  norm_num [handleVolumeChange, initState]

/-- C6 as amended: handleVolumeChange stores the delivered level unchanged,
with no validation of its own; in-range delivery (which the range input
element guarantees) is what keeps the stored volume inside [0, 1]. -/
theorem volume_stored_unchanged (v : ℚ) (s : PlayerState)
    (h0 : 0 ≤ v) (h1 : v ≤ 1) :
    (handleVolumeChange v s).volume = v ∧
    0 ≤ (handleVolumeChange v s).volume ∧
    (handleVolumeChange v s).volume ≤ 1 :=
  ⟨rfl, h0, h1⟩

/-- Witness for the amended C6 at level 1/2. -/
theorem volume_stored_unchanged_witness :
    (handleVolumeChange (1/2) initState).volume = 1/2 ∧
    0 ≤ (handleVolumeChange (1/2) initState).volume ∧
    (handleVolumeChange (1/2) initState).volume ≤ 1 :=
  volume_stored_unchanged (1/2) initState (by norm_num) (by norm_num)

/-- C7: an in-range volume change leaves isPlaying, progress, the source
node, the anchor, the pending frame and the dropped-node list untouched; when
a gain node exists it only receives the new gain value. -/
theorem volume_change_frame (v : ℚ) (s : PlayerState) (h0 : 0 ≤ v) (h1 : v ≤ 1) :
    (handleVolumeChange v s).isPlaying = s.isPlaying ∧
    (handleVolumeChange v s).progress = s.progress ∧
    progressFraction (handleVolumeChange v s) = progressFraction s ∧
    (handleVolumeChange v s).audioSource = s.audioSource ∧
    (handleVolumeChange v s).startTime = s.startTime ∧
    (handleVolumeChange v s).tickScheduled = s.tickScheduled ∧
    (handleVolumeChange v s).finishedNodes = s.finishedNodes ∧
    (s.gainNode.isSome = true → (handleVolumeChange v s).gainNode = some v) := by
  refine ⟨rfl, rfl, rfl, rfl, rfl, rfl, rfl, ?_⟩
  intro hg
  simp [handleVolumeChange, hg]

/-- Witness for C7 at level 1/2 with a live gain node. -/
theorem volume_change_frame_witness :
    (handleVolumeChange (1/2) { initState with gainNode := some (8/10) }).isPlaying =
      ({ initState with gainNode := some (8/10) } : PlayerState).isPlaying ∧
    (handleVolumeChange (1/2)
      { initState with gainNode := some (8/10) }).gainNode = some (1/2) := by
  have h := volume_change_frame (1/2) { initState with gainNode := some (8/10) }
    (by norm_num) (by norm_num)
  exact ⟨h.1, h.2.2.2.2.2.2.2 rfl⟩

/-- C8: with no decoded buffer, playAudio returns before touching anything,
and a toggle in the not-playing state is likewise the identity — the
controller never leaves Idle and no fault is raised. -/
theorem play_without_buffer_noop (now : ℚ) (s : PlayerState) :
    playAudio none now s = s ∧
    (s.isPlaying = false → togglePlay none now s = s) := by
  refine ⟨rfl, ?_⟩
  intro hp
  simp [togglePlay, hp, playAudio]

/-- Witness for C8 at clock 5 from the initial state. -/
theorem play_without_buffer_noop_witness :
    playAudio none 5 initState = initState ∧
    togglePlay none 5 initState = initState := by
  have h := play_without_buffer_noop 5 initState
  exact ⟨h.1, h.2 rfl⟩

/-- C9: pauseAudio is idempotent (the second of two consecutive pauses has no
observable effect), and pausing with no referenced node, no pending frame and
not playing changes nothing at all; no fault is raised in any of these cases
(stopping an already-stopped node is swallowed). -/
theorem pause_idempotent_silent (s : PlayerState) :
    pauseAudio (pauseAudio s) = pauseAudio s ∧
    (s.audioSource = none → s.tickScheduled = false → s.isPlaying = false →
      pauseAudio s = s) := by
  constructor
  · rcases s with ⟨ip, pr, src, st, vol, gn, ts, fin⟩
    cases src <;> simp [pauseAudio, stopAudio]
  · intro h1 h2 h3
    rcases s with ⟨ip, pr, src, st, vol, gn, ts, fin⟩
    simp_all [pauseAudio, stopAudio]

/-- Witness for C9 at the initial (Idle) state. -/
theorem pause_idempotent_silent_witness :
    pauseAudio (pauseAudio initState) = pauseAudio initState ∧
    pauseAudio initState = initState := by
  have h := pause_idempotent_silent initState
  exact ⟨h.1, h.2 rfl rfl rfl⟩

/-- C10: playAudio invoked at progress 100 starts the new node at offset
equal to the full buffer duration (the very end, not the beginning), and the
next tick immediately reports 100 percent with isPlaying false again. -/
theorem play_after_completion (d now t2 : ℚ) (s : PlayerState) (hd : 0 < d)
    (hp : s.progress = 100) (ht : now ≤ t2) :
    (playAudio (some d) now s).audioSource =
      some { startedAt := now, offset := d, stopped := false } ∧
    (step (some d) (Ev.tick t2) (playAudio (some d) now s)).progress = 100 ∧
    progressFraction (step (some d) (Ev.tick t2) (playAudio (some d) now s)) = 1 ∧
    (step (some d) (Ev.tick t2) (playAudio (some d) now s)).isPlaying = false := by
  have hoff : s.progress / 100 * d = d := by rw [hp]; norm_num
  have hts : (playAudio (some d) now s).tickScheduled = true := rfl
  have hstart : (playAudio (some d) now s).startTime = now - d := by
    simp [playAudio, hoff]
  have hel : d ≤ t2 - (playAudio (some d) now s).startTime := by
    rw [hstart]; linarith
  have hstep : step (some d) (Ev.tick t2) (playAudio (some d) now s) =
      { playAudio (some d) now s with
          tickScheduled := false, isPlaying := false, progress := 100 } := by
    simp only [step, if_pos hts]
    rw [updateProgress_complete d t2 _ hd (by simpa using hel)]
  refine ⟨by simp [playAudio, hoff], ?_, ?_, ?_⟩ <;> rw [hstep] <;>
    norm_num [progressFraction]

/-- Witness for C10 at duration 10, resume and tick at clock 20. -/
theorem play_after_completion_witness :
    (playAudio (some 10) 20 { initState with progress := 100 }).audioSource =
      some { startedAt := 20, offset := 10, stopped := false } ∧
    (step (some 10) (Ev.tick 20)
      (playAudio (some 10) 20 { initState with progress := 100 })).isPlaying = false := by
  have h := play_after_completion 10 20 20 { initState with progress := 100 }
    (by norm_num) rfl le_rfl
  exact ⟨h.1, h.2.2.2⟩

end ZenGen
